import Mathlib

/-!
Verification of the `Async::TcpConnection` component
(src/src/async/core/AsyncTcpConnection.h).

The repository ships only the interface declaration of the class.  The
declared data (the `DisconnectReason` enum, `DEFAULT_RECV_BUF_LEN`, the
member fields `remote_addr`, `remote_port`, `recv_buf_len`, `sock`,
`recv_buf`, `recv_buf_cnt` and the signal signatures) is embedded
directly from the header; the behaviour of `disconnect`, `write`,
`recvHandler` and `writeHandler` is modelled from the specification, as
noted on each definition.

Bytes are modelled as natural numbers, buffers as lists of bytes kept in
arrival order.  The single-threaded event loop is modelled by an explicit
event type: each event is one synchronous callback invocation.
-/

namespace Async

/-- Reason code for disconnects, embedded from the `DisconnectReason`
enum of the header. -/
inductive DisconnectReason where
  | DR_HOST_NOT_FOUND
  | DR_REMOTE_DISCONNECTED
  | DR_SYSTEM_ERROR
  | DR_RECV_BUFFER_OVERFLOW
deriving DecidableEq, Repr

/-- Connection state: `Connected` or `Disconnected` (spec section 4.3). -/
inductive ConnState where
  | Connected
  | Disconnected
deriving DecidableEq, Repr

/-- The default length of the reception buffer, embedded from the header
(`static const int DEFAULT_RECV_BUF_LEN = 1024`). -/
def DEFAULT_RECV_BUF_LEN : Nat := 1024

/-- Conversion of a wire port number to a C++ `short` (signed 16-bit,
two's complement): reduce modulo 2^16 and reinterpret values at or above
2^15 as negative. -/
def toInt16 (p : Nat) : Int :=
  if p % 65536 < 32768 then ((p % 65536 : Nat) : Int)
  else ((p % 65536 : Nat) : Int) - 65536

/-- State of one `TcpConnection` object.  The fields `remote_addr`,
`remote_port`, `recv_buf_len`, `recv_buf` are embedded from the header
private members (`recv_buf_cnt` is the length of `recv_buf`); `state`,
`sockValid`, `sockCloses`, `pending`, `sendFull` and the two emission
logs model the connection state machine, the socket handle, the
WriteTracker and the observable signal emissions described by the
specification. -/
structure TcpConnection where
  remote_addr : String
  remote_port : Int
  recv_buf_len : Nat
  state : ConnState
  sockValid : Bool
  sockCloses : Nat
  recv_buf : List Nat
  pending : List Nat
  sendFull : Bool
  disconnectedEmits : List DisconnectReason
  fullNotifs : List Bool
deriving DecidableEq, Repr

/-- Constructor: a connection over an already-connected socket starts
`Connected` with empty buffers (header constructor plus spec section
4.3: initial state on construction is `Connected`).  The port argument
is the wire port number; it is narrowed to the `short` member. -/
def mkTcpConnection (remote_addr : String) (remote_port : Nat)
    (recv_buf_len : Nat) : TcpConnection :=
  { remote_addr := remote_addr
    remote_port := toInt16 remote_port
    recv_buf_len := recv_buf_len
    state := ConnState.Connected
    sockValid := true
    sockCloses := 0
    recv_buf := []
    pending := []
    sendFull := false
    disconnectedEmits := []
    fullNotifs := [] }

/-- Constructor form without an explicit receive-buffer length: the
header declares the defaulted parameter `recv_buf_len = DEFAULT_RECV_BUF_LEN`. -/
def mkTcpConnectionDefault (remote_addr : String) (remote_port : Nat) :
    TcpConnection :=
  mkTcpConnection remote_addr remote_port DEFAULT_RECV_BUF_LEN

/-- Accessor `remotePort`, embedded from the header: returns the stored
`short` member. -/
def TcpConnection.remotePort (c : TcpConnection) : Int :=
  c.remote_port

/-- Accessor `remoteHost`, embedded from the header. -/
def TcpConnection.remoteHost (c : TcpConnection) : String :=
  c.remote_addr

/-- The `recv_buf_cnt` member of the header: number of bytes currently
held in the receive buffer. -/
def TcpConnection.recv_buf_cnt (c : TcpConnection) : Nat :=
  c.recv_buf.length

/-- Modelled from the spec: `disconnect()` (the implementation file is
not in the repository).  Idempotent; transitions to `Disconnected`,
closes the socket, and does not emit the disconnected signal. -/
def TcpConnection.disconnect (c : TcpConnection) : TcpConnection :=
  match c.state with
  | ConnState.Disconnected => c
  | ConnState.Connected =>
      { c with
        state := ConnState.Disconnected
        sockValid := false
        sockCloses := c.sockCloses + 1 }

/-- Modelled from the spec: involuntary transition to `Disconnected`
with a classified reason (spec section 4.3, cases b-e).  Closes the
socket once and emits the disconnected signal once. -/
def TcpConnection.closeWithReason (c : TcpConnection)
    (r : DisconnectReason) : TcpConnection :=
  match c.state with
  | ConnState.Disconnected => c
  | ConnState.Connected =>
      { c with
        state := ConnState.Disconnected
        sockValid := false
        sockCloses := c.sockCloses + 1
        disconnectedEmits := c.disconnectedEmits ++ [r] }

/-- Modelled from the spec: `write(buf, count)` (the implementation file
is not in the repository).  Valid only in `Connected`: enqueues all
bytes into the WriteTracker pending sequence and returns `count`;
returns `-1` when already disconnected. -/
def TcpConnection.write (c : TcpConnection) (buf : List Nat) :
    TcpConnection × Int :=
  match c.state with
  | ConnState.Disconnected => (c, -1)
  | ConnState.Connected =>
      ({ c with pending := c.pending ++ buf }, (buf.length : Int))

/-- Modelled from the spec: one offer of the pending bytes to the
socket, which accepts `accepted` of them (write-event handling, spec
section 4.3, and the WriteTracker transition rule of section 4.2): the
full flag is set when the socket accepts fewer bytes than offered and
cleared only when pending reaches zero; `sendBufferFull` is emitted on
each flag transition. -/
def TcpConnection.offerToSocket (c : TcpConnection) (accepted : Nat) :
    TcpConnection :=
  match c.state with
  | ConnState.Disconnected => c
  | ConnState.Connected =>
      let offered := c.pending.length
      let acc := min accepted offered
      if acc < offered then
        { c with
          pending := c.pending.drop acc
          sendFull := true
          fullNotifs :=
            c.fullNotifs ++ (if c.sendFull then [] else [true]) }
      else
        { c with
          pending := []
          sendFull := false
          fullNotifs :=
            c.fullNotifs ++ (if c.sendFull then [false] else []) }

/-- Result of one socket read attempt. -/
inductive ReadResult where
  | bytes (chunk : List Nat)
  | zeroRead
  | errorRead
deriving DecidableEq, Repr

/-- Modelled from the spec: read-event handling (spec section 4.3,
`recvHandler` in the header; the implementation file is not in the
repository).  A zero-length read classifies as remote-disconnected; an
error as system-error; otherwise the chunk is appended to the receive
buffer (overflow if it does not fit), the full buffer view is delivered
to the consumer, and the reported `proc` processed bytes are removed
from the front.  Returns the new state and the view delivered to the
consumer, if any. -/
def TcpConnection.recvStep (c : TcpConnection) (res : ReadResult)
    (proc : Nat) : TcpConnection × Option (List Nat) :=
  match c.state with
  | ConnState.Disconnected => (c, none)
  | ConnState.Connected =>
      match res with
      | ReadResult.zeroRead =>
          (c.closeWithReason DisconnectReason.DR_REMOTE_DISCONNECTED, none)
      | ReadResult.errorRead =>
          (c.closeWithReason DisconnectReason.DR_SYSTEM_ERROR, none)
      | ReadResult.bytes chunk =>
          if c.recv_buf.length + chunk.length > c.recv_buf_len then
            (c.closeWithReason DisconnectReason.DR_RECV_BUFFER_OVERFLOW, none)
          else
            let view := c.recv_buf ++ chunk
            ({ c with recv_buf := view.drop proc }, some view)

/-- One invocation of the component by the event loop or the caller. -/
inductive Event where
  | readable (res : ReadResult) (proc : Nat)
  | writable (accepted : Nat)
  | writeErr
  | writeCall (buf : List Nat)
  | disconnectCall
deriving DecidableEq, Repr

/-- Modelled from the spec: the single-threaded step function — each
event is one synchronous callback invocation on the connection. -/
def step (c : TcpConnection) : Event → TcpConnection
  | Event.readable res proc => (c.recvStep res proc).1
  | Event.writable accepted => c.offerToSocket accepted
  | Event.writeErr => c.closeWithReason DisconnectReason.DR_SYSTEM_ERROR
  | Event.writeCall buf => (c.write buf).1
  | Event.disconnectCall => c.disconnect

/-- Run a sequence of events. -/
def runEvents (c : TcpConnection) (es : List Event) : TcpConnection :=
  es.foldl step c

/-- Total number of bytes in a sequence of (chunk, processed-count)
pairs. -/
def totalLen : List (List Nat × Nat) → Nat
  | [] => 0
  | (chunk, _) :: rest => chunk.length + totalLen rest

/-- Run the read-event handler over a sequence of arriving chunks, the
consumer returning the paired processed count at each delivery.
Returns the final state and the list of views delivered to the
consumer, in order. -/
def recvRun (c : TcpConnection) :
    List (List Nat × Nat) → TcpConnection × List (List Nat)
  | [] => (c, [])
  | (chunk, proc) :: rest =>
      match c.recvStep (ReadResult.bytes chunk) proc with
      | (c1, none) => recvRun c1 rest
      | (c1, some v) =>
          let r := recvRun c1 rest
          (r.1, v :: r.2)

/-- The delivery views the specification prescribes: the view at call k
is the unconsumed remainder after call k-1 followed by chunk k, and the
remainder after call k is that view with the first `proc k` bytes
removed. -/
def viewsSpec (rem : List Nat) : List (List Nat × Nat) → List (List Nat)
  | [] => []
  | (chunk, proc) :: rest =>
      (rem ++ chunk) :: viewsSpec ((rem ++ chunk).drop proc) rest

/-- Run the read-event handler over arriving chunks with a consumer
that always reports the full delivered length as processed.  Returns
the trace of connection states after each event. -/
def recvRunConsumeAll (c : TcpConnection) :
    List (List Nat) → List TcpConnection
  | [] => []
  | chunk :: rest =>
      let c1 := (c.recvStep (ReadResult.bytes chunk)
                  (c.recv_buf ++ chunk).length).1
      c1 :: recvRunConsumeAll c1 rest

/-! ### Basic lemmas -/

theorem step_frozen (c : TcpConnection) (e : Event)
    (h : c.state = ConnState.Disconnected) : step c e = c := by
  cases e <;>
    simp [step, TcpConnection.recvStep, TcpConnection.offerToSocket,
      TcpConnection.closeWithReason, TcpConnection.write,
      TcpConnection.disconnect, h]

theorem runEvents_frozen (c : TcpConnection) (es : List Event)
    (h : c.state = ConnState.Disconnected) : runEvents c es = c := by
  induction es with
  | nil => rfl
  | cons e es ih =>
      simp only [runEvents, List.foldl_cons, step_frozen c e h]
      exact ih

theorem recvRun_frozen (c : TcpConnection) (pairs : List (List Nat × Nat))
    (h : c.state = ConnState.Disconnected) : recvRun c pairs = (c, []) := by
  induction pairs with
  | nil => rfl
  | cons p rest ih =>
      obtain ⟨chunk, proc⟩ := p
      simp only [recvRun, TcpConnection.recvStep, h]
      exact ih

/-! ### C1: contiguous in-order delivery with carry-over -/

/-- C1: for every sequence of received chunks and processed counts, the
views presented to the consumer are exactly those of the specification:
at delivery k the consumer sees the unconsumed remainder left after
delivery k-1 followed by chunk k, byte for byte and in arrival order,
as one contiguous view.  The capacity hypothesis guarantees every chunk
is delivered (no overflow disconnect interrupts the run). -/
theorem tcp_recvRun_views (c : TcpConnection) (pairs : List (List Nat × Nat))
    (hconn : c.state = ConnState.Connected)
    (hcap : c.recv_buf.length + totalLen pairs ≤ c.recv_buf_len) :
    (recvRun c pairs).2 = viewsSpec c.recv_buf pairs := by
  induction pairs generalizing c with
  | nil => rfl
  | cons p rest ih =>
      obtain ⟨chunk, proc⟩ := p
      obtain ⟨addr, port, cap, st, sv, sc, buf, pen, sf, de, fn⟩ := c
      simp only at hconn hcap
      subst hconn
      have hfit : ¬ (buf.length + chunk.length > cap) := by
        simp only [totalLen] at hcap
        omega
      simp only [recvRun, TcpConnection.recvStep, hfit, if_false, viewsSpec]
      refine congrArg _ ?_
      have hrest :
          ((buf ++ chunk).drop proc).length + totalLen rest ≤ cap := by
        simp only [totalLen] at hcap
        have hd := List.length_drop proc (buf ++ chunk)
        simp only [List.length_append] at hd
        omega
      exact ih ⟨addr, port, cap, ConnState.Connected, sv, sc,
        (buf ++ chunk).drop proc, pen, sf, de, fn⟩ rfl hrest

/-- Witness for C1 at a concrete run: three chunks, the consumer taking
2 of 3, then 0 of 3, then all 4 remaining bytes. -/
theorem tcp_recvRun_views_witness :
    (recvRun (mkTcpConnection "peer" 80 1024)
        [([1, 2, 3], 2), ([4, 5], 0), ([6], 4)]).2 =
      viewsSpec [] [([1, 2, 3], 2), ([4, 5], 0), ([6], 4)] :=
  tcp_recvRun_views (mkTcpConnection "peer" 80 1024)
    [([1, 2, 3], 2), ([4, 5], 0), ([6], 4)] rfl (by decide)

/-! ### C8: a consumer that takes everything leaves the buffer empty -/

/-- C8: if the consumer always returns the full delivered length as its
processed count, the receive buffer is empty immediately after every
delivery (every state in the trace has `recv_buf_cnt = 0`). -/
theorem tcp_consumeAll_empty (c : TcpConnection) (chunks : List (List Nat))
    (hbuf : c.recv_buf = []) :
    ((recvRunConsumeAll c chunks).all fun s => s.recv_buf.isEmpty) = true := by
  induction chunks generalizing c with
  | nil => rfl
  | cons chunk rest ih =>
      have hstep :
          ((c.recvStep (ReadResult.bytes chunk)
              (c.recv_buf ++ chunk).length).1).recv_buf = [] := by
        obtain ⟨addr, port, cap, st, sv, sc, buf, pen, sf, de, fn⟩ := c
        simp only at hbuf
        subst hbuf
        cases st with
        | Disconnected => rfl
        | Connected =>
            simp only [TcpConnection.recvStep]
            split
            · simp [TcpConnection.closeWithReason]
            · simp [List.drop_length]
      have hstep2 :
          ((c.recvStep (ReadResult.bytes chunk)
              (c.recv_buf.length + chunk.length)).1).recv_buf = [] := by
        rw [← List.length_append]
        exact hstep
      simp only [recvRunConsumeAll, List.all_cons, Bool.and_eq_true]
      refine ⟨by simp [List.isEmpty_iff, hstep, hstep2], ?_⟩
      exact ih ((c.recvStep (ReadResult.bytes chunk)
        (c.recv_buf ++ chunk).length).1) hstep

/-- Witness for C8 at a concrete run. -/
theorem tcp_consumeAll_empty_witness :
    ((recvRunConsumeAll (mkTcpConnection "peer" 80 1024)
        [[1, 2, 3], [4, 5], []]).all fun s => s.recv_buf.isEmpty) = true :=
  tcp_consumeAll_empty (mkTcpConnection "peer" 80 1024)
    [[1, 2, 3], [4, 5], []] rfl

/-! ### C2: a consumer that never makes progress forces an overflow -/

/-- C2: if the consumer always returns 0 as its processed count and the
arriving chunks would accumulate past the configured capacity, the
connection ends `Disconnected` with reason `DR_RECV_BUFFER_OVERFLOW`,
and the disconnected notification with that reason fires exactly once
(the emission log is exactly one overflow entry). -/
theorem tcp_zero_consumer_overflow (c : TcpConnection)
    (pairs : List (List Nat × Nat))
    (hconn : c.state = ConnState.Connected)
    (hemits : c.disconnectedEmits = [])
    (hbound : c.recv_buf.length ≤ c.recv_buf_len)
    (hover : c.recv_buf_len < c.recv_buf.length + totalLen pairs)
    (hzero : ∀ p ∈ pairs, p.2 = 0) :
    (recvRun c pairs).1.state = ConnState.Disconnected ∧
      (recvRun c pairs).1.disconnectedEmits =
        [DisconnectReason.DR_RECV_BUFFER_OVERFLOW] := by
  induction pairs generalizing c with
  | nil =>
      exfalso
      simp only [totalLen] at hover
      omega
  | cons p rest ih =>
      obtain ⟨chunk, proc⟩ := p
      have hp0 : proc = 0 := hzero (chunk, proc) (List.mem_cons_self _ _)
      subst hp0
      obtain ⟨addr, port, cap, st, sv, sc, buf, pen, sf, de, fn⟩ := c
      simp only at hconn hemits hbound hover
      subst hconn
      subst hemits
      by_cases hov : buf.length + chunk.length > cap
      · simp only [recvRun, TcpConnection.recvStep, hov, if_true,
          TcpConnection.closeWithReason]
        rw [recvRun_frozen _ rest rfl]
        exact ⟨rfl, rfl⟩
      · simp only [recvRun, TcpConnection.recvStep, hov, if_false]
        refine ih ⟨addr, port, cap, ConnState.Connected, sv, sc,
          (buf ++ chunk).drop 0, pen, sf, [], fn⟩ rfl rfl ?_ ?_
          (fun q hq => hzero q (List.mem_cons_of_mem _ hq))
        · simp only [List.drop_zero, List.length_append]
          omega
        · simp only [totalLen] at hover
          simp only [List.drop_zero, List.length_append]
          omega

/-- Witness for C2 at a concrete run: capacity 4, chunks of 3 and 2
bytes with a consumer that always reports 0 processed. -/
theorem tcp_zero_consumer_overflow_witness :
    (recvRun (mkTcpConnection "peer" 80 4)
        [([1, 2, 3], 0), ([4, 5], 0)]).1.state = ConnState.Disconnected ∧
      (recvRun (mkTcpConnection "peer" 80 4)
          [([1, 2, 3], 0), ([4, 5], 0)]).1.disconnectedEmits =
        [DisconnectReason.DR_RECV_BUFFER_OVERFLOW] :=
  tcp_zero_consumer_overflow (mkTcpConnection "peer" 80 4)
    [([1, 2, 3], 0), ([4, 5], 0)] rfl rfl (by decide) (by decide)
    (by decide)

/-! ### C4: zero-length read means the peer closed -/

/-- C4: a read that returns zero bytes while the connection is
`Connected` transitions it to `Disconnected` with reason
`DR_REMOTE_DISCONNECTED`, and exactly one disconnected notification is
fired for that connection, whatever events follow. -/
theorem tcp_zero_read_disconnects (c : TcpConnection) (proc : Nat)
    (es : List Event)
    (hconn : c.state = ConnState.Connected)
    (hemits : c.disconnectedEmits = []) :
    (runEvents (step c (Event.readable ReadResult.zeroRead proc)) es).state =
        ConnState.Disconnected ∧
      (runEvents (step c (Event.readable ReadResult.zeroRead proc))
          es).disconnectedEmits =
        [DisconnectReason.DR_REMOTE_DISCONNECTED] := by
  obtain ⟨addr, port, cap, st, sv, sc, buf, pen, sf, de, fn⟩ := c
  simp only at hconn hemits
  subst hconn
  subst hemits
  rw [runEvents_frozen _ es rfl]
  exact ⟨rfl, rfl⟩

/-- Witness for C4 at a concrete connection with further events after
the zero-length read. -/
theorem tcp_zero_read_disconnects_witness :
    (runEvents (step (mkTcpConnection "peer" 80 1024)
          (Event.readable ReadResult.zeroRead 7))
        [Event.readable (ReadResult.bytes [1, 2]) 0,
          Event.disconnectCall]).state = ConnState.Disconnected ∧
      (runEvents (step (mkTcpConnection "peer" 80 1024)
            (Event.readable ReadResult.zeroRead 7))
          [Event.readable (ReadResult.bytes [1, 2]) 0,
            Event.disconnectCall]).disconnectedEmits =
        [DisconnectReason.DR_REMOTE_DISCONNECTED] :=
  tcp_zero_read_disconnects (mkTcpConnection "peer" 80 1024) 7
    [Event.readable (ReadResult.bytes [1, 2]) 0, Event.disconnectCall]
    rfl rfl

/-! ### C5: disconnect is idempotent and silent -/

/-- C5: `disconnect` is idempotent — a second call is a no-op, a
connected connection sees exactly one socket close across both calls,
and no disconnected notification is emitted by either call. -/
theorem tcp_disconnect_idempotent (c : TcpConnection)
    (hconn : c.state = ConnState.Connected) :
    c.disconnect.disconnect = c.disconnect ∧
      c.disconnect.disconnect.sockCloses = c.sockCloses + 1 ∧
      c.disconnect.disconnect.disconnectedEmits = c.disconnectedEmits := by
  obtain ⟨addr, port, cap, st, sv, sc, buf, pen, sf, de, fn⟩ := c
  simp only at hconn
  subst hconn
  exact ⟨rfl, rfl, rfl⟩

/-- Witness for C5 at a concrete connected connection. -/
theorem tcp_disconnect_idempotent_witness :
    (mkTcpConnectionDefault "peer" 80).disconnect.disconnect =
        (mkTcpConnectionDefault "peer" 80).disconnect ∧
      (mkTcpConnectionDefault "peer" 80).disconnect.disconnect.sockCloses =
        (mkTcpConnectionDefault "peer" 80).sockCloses + 1 ∧
      (mkTcpConnectionDefault
          "peer" 80).disconnect.disconnect.disconnectedEmits =
        (mkTcpConnectionDefault "peer" 80).disconnectedEmits :=
  tcp_disconnect_idempotent (mkTcpConnectionDefault "peer" 80) rfl

/-! ### C6: the write contract -/

/-- C6: `write` on a connected connection enqueues all bytes (the
enqueue is unbounded) and returns the byte count; on a disconnected
connection it returns the sentinel `-1` and changes nothing.  The
function is total: no exception crosses the boundary. -/
theorem tcp_write_contract (c : TcpConnection) (buf : List Nat) :
    (c.write buf).2 =
        (if c.state = ConnState.Connected then (buf.length : Int) else -1) ∧
      (c.write buf).1.pending =
        (if c.state = ConnState.Connected then c.pending ++ buf
          else c.pending) ∧
      (c.write buf).1.state = c.state := by
  obtain ⟨addr, port, cap, st, sv, sc, rbuf, pen, sf, de, fn⟩ := c
  cases st <;> simp [TcpConnection.write]

/-! ### C7: Disconnected is terminal, socket valid iff connected -/

/-- The socket-resource invariant of the specification: the socket
handle is valid exactly in state `Connected`, and the socket has been
closed exactly once exactly when the connection has reached
`Disconnected`. -/
def SockInv (c : TcpConnection) : Prop :=
  (c.sockValid = true ↔ c.state = ConnState.Connected) ∧
    c.sockCloses = (if c.state = ConnState.Disconnected then 1 else 0)

theorem sockInv_step (c : TcpConnection) (e : Event) (h : SockInv c) :
    SockInv (step c e) := by
  obtain ⟨addr, port, cap, st, sv, sc, buf, pen, sf, de, fn⟩ := c
  obtain ⟨h1, h2⟩ := h
  simp only at h1 h2
  cases st with
  | Disconnected =>
      rw [step_frozen _ _ rfl]
      exact ⟨h1, h2⟩
  | Connected =>
      have hsv : sv = true := h1.mpr rfl
      have hsc : sc = 0 := by simpa using h2
      subst hsv
      subst hsc
      cases e with
      | readable res proc =>
          cases res with
          | bytes chunk =>
              simp only [step, TcpConnection.recvStep]
              split
              · simp [TcpConnection.closeWithReason, SockInv]
              · simp [SockInv]
          | zeroRead =>
              simp [step, TcpConnection.recvStep,
                TcpConnection.closeWithReason, SockInv]
          | errorRead =>
              simp [step, TcpConnection.recvStep,
                TcpConnection.closeWithReason, SockInv]
      | writable accepted =>
          simp only [step, TcpConnection.offerToSocket]
          split <;> simp [SockInv]
      | writeErr =>
          simp [step, TcpConnection.closeWithReason, SockInv]
      | writeCall b =>
          simp [step, TcpConnection.write, SockInv]
      | disconnectCall =>
          simp [step, TcpConnection.disconnect, SockInv]

theorem sockInv_runEvents (c : TcpConnection) (es : List Event)
    (h : SockInv c) : SockInv (runEvents c es) := by
  induction es generalizing c with
  | nil => exact h
  | cons e es ih =>
      simp only [runEvents, List.foldl_cons]
      exact ih (step c e) (sockInv_step c e h)

/-- C7: `Disconnected` is terminal — every operation on a disconnected
connection is a no-op on the state — and along every event sequence
from a freshly constructed connection the socket handle is valid iff
the state is `Connected` and the socket has been closed exactly once
iff the state is `Disconnected`. -/
theorem tcp_disconnected_terminal (c : TcpConnection) (e : Event)
    (addr : String) (port : Nat) (cap : Nat) (es : List Event)
    (hd : c.state = ConnState.Disconnected) :
    step c e = c ∧
      ((runEvents (mkTcpConnection addr port cap) es).sockValid = true ↔
        (runEvents (mkTcpConnection addr port cap) es).state =
          ConnState.Connected) ∧
      (runEvents (mkTcpConnection addr port cap) es).sockCloses =
        (if (runEvents (mkTcpConnection addr port cap) es).state =
            ConnState.Disconnected then 1 else 0) := by
  have hinv : SockInv (runEvents (mkTcpConnection addr port cap) es) :=
    sockInv_runEvents _ es ⟨by simp [mkTcpConnection], by simp [mkTcpConnection]⟩
  exact ⟨step_frozen c e hd, hinv.1, hinv.2⟩

/-- Witness for C7: a disconnected concrete connection absorbs a write
call, and a concrete run satisfies the socket invariant. -/
theorem tcp_disconnected_terminal_witness :
    step (mkTcpConnectionDefault "peer" 80).disconnect
        (Event.writeCall [1, 2]) =
      (mkTcpConnectionDefault "peer" 80).disconnect ∧
      ((runEvents (mkTcpConnection "peer" 80 4)
            [Event.writeCall [9], Event.readable ReadResult.zeroRead 0,
              Event.writable 1]).sockValid = true ↔
        (runEvents (mkTcpConnection "peer" 80 4)
            [Event.writeCall [9], Event.readable ReadResult.zeroRead 0,
              Event.writable 1]).state = ConnState.Connected) ∧
      (runEvents (mkTcpConnection "peer" 80 4)
          [Event.writeCall [9], Event.readable ReadResult.zeroRead 0,
            Event.writable 1]).sockCloses =
        (if (runEvents (mkTcpConnection "peer" 80 4)
              [Event.writeCall [9], Event.readable ReadResult.zeroRead 0,
                Event.writable 1]).state = ConnState.Disconnected
          then 1 else 0) :=
  tcp_disconnected_terminal (mkTcpConnectionDefault "peer" 80).disconnect
    (Event.writeCall [1, 2]) "peer" 80 4
    [Event.writeCall [9], Event.readable ReadResult.zeroRead 0,
      Event.writable 1] rfl

/-! ### C9: the default receive-buffer capacity -/

/-- C9: a connection constructed without an explicit receive-buffer
length gets capacity `DEFAULT_RECV_BUF_LEN`, which is 1024 bytes. -/
theorem tcp_default_capacity (addr : String) (port : Nat) :
    (mkTcpConnectionDefault addr port).recv_buf_len = 1024 ∧
      DEFAULT_RECV_BUF_LEN = 1024 :=
  ⟨rfl, rfl⟩

/-! ### C10: the remote port is a signed 16-bit value -/

/-- C10: the remote port is stored in a C++ `short`: `remotePort`
returns the construction-time port reduced modulo 2^16 and
reinterpreted as a signed 16-bit integer, so ports with
`p % 65536 ≥ 32768` are observed as negative numbers. -/
theorem tcp_remotePort_signed16 (addr : String) (cap : Nat) (p : Nat) :
    (mkTcpConnection addr p cap).remotePort % 65536 =
        ((p % 65536 : Nat) : Int) ∧
      -32768 ≤ (mkTcpConnection addr p cap).remotePort ∧
      (mkTcpConnection addr p cap).remotePort < 32768 ∧
      (32768 ≤ p % 65536 → (mkTcpConnection addr p cap).remotePort < 0) := by
  have hlt : p % 65536 < 65536 := Nat.mod_lt _ (by norm_num)
  have hrp : (mkTcpConnection addr p cap).remotePort = toInt16 p := rfl
  rw [hrp]
  unfold toInt16
  by_cases h : p % 65536 < 32768
  · rw [if_pos h]
    refine ⟨?_, ?_, ?_, fun hx => ?_⟩ <;> omega
  · rw [if_neg h]
    refine ⟨?_, ?_, ?_, fun hx => ?_⟩ <;> omega

/-- Witness for C10: port 50000 is observed as a negative number. -/
theorem tcp_remotePort_signed16_witness :
    (mkTcpConnection "peer" 50000 1024).remotePort < 0 :=
  (tcp_remotePort_signed16 "peer" 1024 50000).2.2.2 (by decide)

/-! ### C3: backpressure episodes -/

/-- Modelled from the spec: the WriteTracker full-flag transition rule
of section 4.2 expressed over byte counts — the flag is set the moment
an offer to the socket accepts fewer bytes than offered, and cleared
only when pending reaches zero. -/
def fullFlagSpec : Nat → Bool → List Event → Bool
  | _, full, [] => full
  | pen, full, Event.writeCall buf :: es =>
      fullFlagSpec (pen + buf.length) full es
  | pen, _, Event.writable accepted :: es =>
      if min accepted pen < pen then
        fullFlagSpec (pen - min accepted pen) true es
      else fullFlagSpec 0 false es
  | pen, full, _ :: es => fullFlagSpec pen full es

/-- Strict alternation of a notification list against an initial flag
value: each emission is the negation of the flag value before it, so
notifications occur exactly at flag transitions, one per episode. -/
def altSeq : Bool → List Bool → Bool
  | _, [] => true
  | b, x :: xs => (x == !b) && altSeq x xs

/-- Event sequences containing only write calls and socket
write-readiness offers. -/
def writeOnly : List Event → Bool
  | [] => true
  | Event.writeCall _ :: es => writeOnly es
  | Event.writable _ :: es => writeOnly es
  | _ => false

theorem runEvents_cons (c : TcpConnection) (e : Event) (es : List Event) :
    runEvents c (e :: es) = runEvents (step c e) es := rfl

theorem getLastD_snoc (xs : List Bool) (d y : Bool) :
    (xs ++ [y]).getLastD d = y := by
  induction xs generalizing d with
  | nil => rfl
  | cons x xs ih =>
      rw [List.cons_append, List.getLastD_cons]
      exact ih x

theorem altSeq_snoc (b0 : Bool) (xs : List Bool) (y : Bool)
    (h : altSeq b0 xs = true) (hy : y = !(xs.getLastD b0)) :
    altSeq b0 (xs ++ [y]) = true := by
  induction xs generalizing b0 with
  | nil =>
      simp only [List.getLastD_nil] at hy
      simp [altSeq, hy]
  | cons x xs ih =>
      simp only [altSeq, Bool.and_eq_true, beq_iff_eq] at h
      obtain ⟨hx, hrest⟩ := h
      rw [List.getLastD_cons] at hy
      simp only [List.cons_append, altSeq, Bool.and_eq_true, beq_iff_eq]
      exact ⟨hx, ih x hrest hy⟩

theorem writeRun_inv (es : List Event) (c : TcpConnection) (b0 : Bool)
    (hconn : c.state = ConnState.Connected)
    (hw : writeOnly es = true)
    (hlast : c.sendFull = c.fullNotifs.getLastD b0)
    (halt : altSeq b0 c.fullNotifs = true) :
    (runEvents c es).sendFull =
        fullFlagSpec c.pending.length c.sendFull es ∧
      altSeq b0 (runEvents c es).fullNotifs = true ∧
      (runEvents c es).sendFull =
        (runEvents c es).fullNotifs.getLastD b0 := by
  induction es generalizing c with
  | nil => exact ⟨rfl, halt, hlast⟩
  | cons e es ih =>
      cases e with
      | readable res proc => simp [writeOnly] at hw
      | writeErr => simp [writeOnly] at hw
      | disconnectCall => simp [writeOnly] at hw
      | writeCall buf =>
          have hw2 : writeOnly es = true := hw
          obtain ⟨addr, port, cap, st, sv, sc, rbuf, pen, sf, de, fn⟩ := c
          simp only at hconn hlast halt
          subst hconn
          have hih := ih ⟨addr, port, cap, ConnState.Connected, sv, sc, rbuf,
            pen ++ buf, sf, de, fn⟩ rfl hw2 hlast halt
          simp only [List.length_append] at hih
          rw [runEvents_cons]
          exact hih
      | writable accepted =>
          have hw2 : writeOnly es = true := hw
          obtain ⟨addr, port, cap, st, sv, sc, rbuf, pen, sf, de, fn⟩ := c
          simp only at hconn hlast halt
          subst hconn
          rw [runEvents_cons]
          by_cases hpart : min accepted pen.length < pen.length
          · have hstep : step ⟨addr, port, cap, ConnState.Connected, sv, sc,
                rbuf, pen, sf, de, fn⟩ (Event.writable accepted) =
                ⟨addr, port, cap, ConnState.Connected, sv, sc, rbuf,
                  pen.drop (min accepted pen.length), true, de,
                  fn ++ (if sf then [] else [true])⟩ := by
              simp only [step, TcpConnection.offerToSocket]
              rw [if_pos hpart]
            have hspec : fullFlagSpec pen.length sf
                (Event.writable accepted :: es) =
                fullFlagSpec (pen.length - min accepted pen.length) true
                  es := by
              simp only [fullFlagSpec]
              rw [if_pos hpart]
            rw [hstep, hspec]
            cases sf with
            | true =>
                simp only [if_true, List.append_nil]
                have hih := ih ⟨addr, port, cap, ConnState.Connected, sv, sc,
                  rbuf, pen.drop (min accepted pen.length), true, de, fn⟩
                  rfl hw2 hlast halt
                simpa [List.length_drop] using hih
            | false =>
                simp only [if_false, Bool.false_eq_true]
                have hlast2 : (true : Bool) =
                    (fn ++ [true]).getLastD b0 := by
                  rw [getLastD_snoc]
                have halt2 : altSeq b0 (fn ++ [true]) = true :=
                  altSeq_snoc b0 fn true halt (by rw [← hlast]; rfl)
                have hih := ih ⟨addr, port, cap, ConnState.Connected, sv, sc,
                  rbuf, pen.drop (min accepted pen.length), true, de,
                  fn ++ [true]⟩ rfl hw2 hlast2 halt2
                simpa [List.length_drop] using hih
          · have hstep : step ⟨addr, port, cap, ConnState.Connected, sv, sc,
                rbuf, pen, sf, de, fn⟩ (Event.writable accepted) =
                ⟨addr, port, cap, ConnState.Connected, sv, sc, rbuf,
                  [], false, de,
                  fn ++ (if sf then [false] else [])⟩ := by
              simp only [step, TcpConnection.offerToSocket]
              rw [if_neg hpart]
            have hspec : fullFlagSpec pen.length sf
                (Event.writable accepted :: es) =
                fullFlagSpec 0 false es := by
              simp only [fullFlagSpec]
              rw [if_neg hpart]
            rw [hstep, hspec]
            cases sf with
            | true =>
                simp only [if_true]
                have hlast2 : (false : Bool) =
                    (fn ++ [false]).getLastD b0 := by
                  rw [getLastD_snoc]
                have halt2 : altSeq b0 (fn ++ [false]) = true :=
                  altSeq_snoc b0 fn false halt (by rw [← hlast]; rfl)
                exact ih ⟨addr, port, cap, ConnState.Connected, sv, sc,
                  rbuf, [], false, de, fn ++ [false]⟩ rfl hw2 hlast2 halt2
            | false =>
                simp only [if_false, Bool.false_eq_true, List.append_nil]
                exact ih ⟨addr, port, cap, ConnState.Connected, sv, sc,
                  rbuf, [], false, de, fn⟩ rfl hw2 hlast halt

/-- C3: over any run of write calls and socket offers from a fresh
connection, the WriteTracker full flag equals the specification rule —
set exactly when an offer accepts fewer bytes than offered, cleared
only when the pending sequence drains to zero — and the emitted
`sendBufferFull` notifications strictly alternate starting with a
backpressure-asserted `true` and end at the current flag value, so each
false→true flag transition emits exactly one asserted notification and
each true→false transition exactly one cleared notification. -/
theorem tcp_sendBufferFull_episodes (c : TcpConnection) (es : List Event)
    (hconn : c.state = ConnState.Connected)
    (hw : writeOnly es = true)
    (hsf : c.sendFull = false)
    (hn : c.fullNotifs = []) :
    (runEvents c es).sendFull = fullFlagSpec c.pending.length false es ∧
      altSeq false (runEvents c es).fullNotifs = true ∧
      (runEvents c es).sendFull =
        (runEvents c es).fullNotifs.getLastD false := by
  have h := writeRun_inv es c false hconn hw
    (by rw [hsf, hn]; rfl) (by rw [hn]; rfl)
  rw [hsf] at h
  exact h

/-- Witness for C3: write 5 bytes, the socket accepts only 3 on the
first offer (backpressure asserted once), a later offer drains the
remaining 2 (backpressure cleared once). -/
theorem tcp_sendBufferFull_episodes_witness :
    (runEvents (mkTcpConnectionDefault "peer" 80)
          [Event.writeCall [1, 2, 3, 4, 5], Event.writable 3,
            Event.writable 9]).sendFull =
        fullFlagSpec (mkTcpConnectionDefault "peer" 80).pending.length false
          [Event.writeCall [1, 2, 3, 4, 5], Event.writable 3,
            Event.writable 9] ∧
      altSeq false
          (runEvents (mkTcpConnectionDefault "peer" 80)
            [Event.writeCall [1, 2, 3, 4, 5], Event.writable 3,
              Event.writable 9]).fullNotifs = true ∧
      (runEvents (mkTcpConnectionDefault "peer" 80)
          [Event.writeCall [1, 2, 3, 4, 5], Event.writable 3,
            Event.writable 9]).sendFull =
        (runEvents (mkTcpConnectionDefault "peer" 80)
            [Event.writeCall [1, 2, 3, 4, 5], Event.writable 3,
              Event.writable 9]).fullNotifs.getLastD false :=
  tcp_sendBufferFull_episodes (mkTcpConnectionDefault "peer" 80)
    [Event.writeCall [1, 2, 3, 4, 5], Event.writable 3, Event.writable 9]
    rfl (by decide) rfl rfl

end Async
